import Mathlib

/-!
Shallow embedding of the `gnitive/multipart` streaming `multipart/form-data`
parser (Rust), faithful to `src/src/multipart_parser.rs`, `src/src/header.rs`,
`src/lib/src/boundary_builder.rs`, `src/lib/src/process_content.rs` and the
code generated by `src/derive/src/multipart_struct.rs` /
`src/derive/src/multipart_field.rs`.

Bytes are modelled as `Nat` (only compared, never arithmetically combined, so
no overflow concerns); decoded text is a list of Unicode scalar values
(`Text := List Nat`).  All stateful Rust code is explicit state passing; Rust
panics (`panic!`, `Vec` index out of bounds, `Option::unwrap` on `None`,
slice-range panics) and the `Err(io_error)` early return from the error
handler are surfaced through `Except Abort`.
-/

namespace Multipart

/-- Decoded text: a list of Unicode scalar values, as produced by
`String::from_utf8`.  For ASCII input this coincides with the byte list. -/
abbrev Text := List Nat

/-- Unicode scalar values of a Lean string literal, used to write concrete
inputs and names. -/
def str (s : String) : Text := s.data.map Char.toNat

/-- Rust `str::split(sep)` on chars: maximal (possibly empty) runs between
separators; the empty string splits to `[""]`. -/
def splitChar (sep : Nat) : Text → List Text
  | [] => [[]]
  | c :: cs =>
    if c = sep then [] :: splitChar sep cs
    else
      match splitChar sep cs with
      | [] => [[c]]
      | h :: t => (c :: h) :: t

/-- The Unicode `White_Space` set, the predicate behind Rust
`char::is_whitespace` used by `str::trim`. -/
def isWS (c : Nat) : Bool :=
  List.elem c [9, 10, 11, 12, 13, 32, 133, 160, 5760, 8192, 8193, 8194, 8195,
    8196, 8197, 8198, 8199, 8200, 8201, 8202, 8232, 8233, 8239, 8287, 12288]

/-- Drop the longest suffix whose members satisfy `p`. -/
def dropRightWhile (p : Nat → Bool) (t : Text) : Text :=
  (t.reverse.dropWhile p).reverse

/-- Rust `str::trim`: strip leading and trailing whitespace. -/
def rustTrim (t : Text) : Text := dropRightWhile isWS (t.dropWhile isWS)

/-- Rust `str::trim_matches(m)` with a char pattern: repeatedly strip the
matching char from both ends. -/
def trimMatchesChar (m : Nat) (t : Text) : Text :=
  dropRightWhile (· == m) (t.dropWhile (· == m))

/-- Strict UTF-8 decoding (the validation of Rust `String::from_utf8`):
`need` pending continuation bytes, `acc` accumulated bits, and the allowed
range `lo..hi` for the next byte (which encodes the rejection of overlong
forms, surrogates and values above `0x10FFFF`). -/
def utf8Aux : List Nat → Nat → Nat → Nat → Nat → Option (List Nat)
  | [], 0, _, _, _ => some []
  | [], _ + 1, _, _, _ => none
  | b :: bs, 0, _, _, _ =>
    if b < 0x80 then (utf8Aux bs 0 0 0 0).map (b :: ·)
    else if b < 0xC2 then none
    else if b < 0xE0 then utf8Aux bs 1 (b % 0x20) 0x80 0xBF
    else if b = 0xE0 then utf8Aux bs 2 (b % 0x10) 0xA0 0xBF
    else if b < 0xED then utf8Aux bs 2 (b % 0x10) 0x80 0xBF
    else if b = 0xED then utf8Aux bs 2 (b % 0x10) 0x80 0x9F
    else if b < 0xF0 then utf8Aux bs 2 (b % 0x10) 0x80 0xBF
    else if b = 0xF0 then utf8Aux bs 3 (b % 0x8) 0x90 0xBF
    else if b < 0xF4 then utf8Aux bs 3 (b % 0x8) 0x80 0xBF
    else if b = 0xF4 then utf8Aux bs 3 (b % 0x8) 0x80 0x8F
    else none
  | b :: bs, n + 1, acc, lo, hi =>
    if lo ≤ b ∧ b ≤ hi then
      match n with
      | 0 => (utf8Aux bs 0 0 0 0).map ((acc * 64 + b % 64) :: ·)
      | m + 1 => utf8Aux bs (m + 1) (acc * 64 + b % 64) 0x80 0xBF
    else none

/-- Rust `String::from_utf8` on a byte vector: `some` decoded scalar values,
or `none` on invalid UTF-8. -/
def utf8Decode (bs : List Nat) : Option Text := utf8Aux bs 0 0 0 0

/-- Panic-equivalent aborts of the Rust code. -/
inductive Fatal
  /-- `panic!("Cannot parse first boundary, ...")` in `process_boundary_first`. -/
  | badFirstBoundary
  /-- `panic!("Cannot parse header part ...")` in `Header::to_key_value`. -/
  | badHeaderPart
  /-- A `Vec` index or slice range out of bounds. -/
  | idxOut
  /-- `Option::unwrap` on `None` (`headers.get_name().unwrap()` in the
  derive-generated dispatcher). -/
  | unwrapNone
  /-- `panic!("'write' called after 'flush' ...")` in `DefaultProcessor`. -/
  | writeAfterFlush
  /-- Fuel exhaustion of the modelled bounded recursion in `process_header`;
  unreachable for the fuel supplied (the replay loop is bounded by the length
  of the 2-byte `empty_string`). -/
  | fuelOut
deriving DecidableEq, Repr

/-- Why a run of the parser stopped early: a Rust panic, or the `Err(io_error)`
early return propagated from the target's error handler. -/
inductive Abort
  | fatal (p : Fatal)
  | ioError
deriving DecidableEq, Repr

/-- One multipart header (`gnitive_multipart::Header`): `name`, `value` and the
parameter map.  The `HashMap` is modelled as an association list where lookup
finds the most recent insertion. -/
structure Header where
  name : Text
  value : Text
  fields : List (Text × Text)
deriving DecidableEq, Repr

/-- Insert with overwrite, as `HashMap::insert`: prepend and delete older
entries with the same key. -/
def insertKV (k v : Text) (m : List (Text × Text)) : List (Text × Text) :=
  (k, v) :: m.filter (fun p => !(p.1 == k))

/-- `HashMap::get`, on the association-list model. -/
def lookupKV (k : Text) (m : List (Text × Text)) : Option Text :=
  (m.find? (fun p => p.1 == k)).map (·.2)

/-- `Header::to_key_value`: split on `sep` and expect exactly two parts, else
panic; both parts are trimmed. -/
def toKeyValue (s : Text) (sep : Nat) : Except Fatal (Text × Text) :=
  match splitChar sep s with
  | [a, b] => .ok (rustTrim a, rustTrim b)
  | _ => .error .badHeaderPart

/-- The parameter-collection loop of `Header::new`: for each `;`-separated
piece after the first, split at `=`, strip quotes from the value with
`trim_matches('"')`, and insert. -/
def buildFields (acc : List (Text × Text)) : List Text → Except Fatal (List (Text × Text))
  | [] => .ok acc
  | s :: rest =>
    match toKeyValue s 61 with
    | .error p => .error p
    | .ok kv => buildFields (insertKV kv.1 (trimMatchesChar 34 kv.2) acc) rest

/-- `Header::new`: split the line at `;`, parse `name: value` from the first
piece and parameters from the rest. -/
def headerNew (s : Text) : Except Fatal Header :=
  match splitChar 59 s with
  | [] => .error .idxOut
  | first :: rest =>
    match toKeyValue first 58 with
    | .error p => .error p
    | .ok nv =>
      match buildFields [] rest with
      | .error p => .error p
      | .ok fs => .ok ⟨nv.1, nv.2, fs⟩

/-- All headers of one part (`gnitive_multipart::Headers`), keyed by header
name. -/
structure HeadersM where
  headers : List (Text × Header)
deriving DecidableEq, Repr

/-- Insert a header with overwrite, as in `Headers::new`. -/
def insertHdr (k : Text) (v : Header) (m : List (Text × Header)) : List (Text × Header) :=
  (k, v) :: m.filter (fun p => !(p.1 == k))

/-- The loop of `Headers::new` over header lines. -/
def headersBuildGo (acc : List (Text × Header)) : List Text → Except Fatal (List (Text × Header))
  | [] => .ok acc
  | l :: ls =>
    match headerNew l with
    | .error p => .error p
    | .ok h => headersBuildGo (insertHdr h.name h acc) ls

/-- `Headers::new`. -/
def headersBuild (lines : List Text) : Except Fatal HeadersM :=
  match headersBuildGo [] lines with
  | .error p => .error p
  | .ok m => .ok ⟨m⟩

/-- `Headers::get(name, field_name)`. -/
def headersGet (hs : HeadersM) (name field : Text) : Option Text :=
  match (hs.headers.find? (fun p => p.1 == name)).map (·.2) with
  | none => none
  | some hdr => lookupKV field hdr.fields

/-- `Headers::get_name()`: the `name` parameter of `Content-Disposition`. -/
def headersGetName (hs : HeadersM) : Option Text :=
  headersGet hs (str "Content-Disposition") (str "name")

/-- `Headers::get_filename()`. -/
def headersGetFilename (hs : HeadersM) : Option Text :=
  headersGet hs (str "Content-Disposition") (str "filename")

/-- `HeadersBuilder`: the raw-byte buffer of the current header line and the
completed decoded lines. -/
structure HeadersBuilder where
  tmp : List Nat
  lines : List Text
deriving DecidableEq, Repr

/-- `HeadersBuilder::write`: push one byte. -/
def hbWrite (b : HeadersBuilder) (c : Nat) : HeadersBuilder :=
  { b with tmp := b.tmp ++ [c] }

/-- `HeadersBuilder::flush`: decode the buffered line as UTF-8; keep it on
success, silently discard it on failure; clear the buffer either way. -/
def hbFlush (b : HeadersBuilder) : HeadersBuilder :=
  match utf8Decode b.tmp with
  | some line => { tmp := [], lines := b.lines ++ [line] }
  | none => { tmp := [], lines := b.lines }

/-- `HeadersBuilder::build`: build `Headers` from the completed lines and
clear everything. -/
def hbBuild (b : HeadersBuilder) : Except Fatal (HeadersM × HeadersBuilder) :=
  match headersBuild b.lines with
  | .error p => .error p
  | .ok hs => .ok (hs, ⟨[], []⟩)

/-- `ProcessParams`: per-part name and optional size limit. -/
structure ProcessParams where
  name : Text
  maxSize : Option Nat
deriving DecidableEq, Repr

/-- `OnError`: the disposition the error handler picks for the rest of the
current part. -/
inductive OnError
  | continueWithoutError
  | continueWithError
  | skip
deriving DecidableEq, Repr

/-- The errors passed to `MultipartParserTarget::error`
(`MultipartParseError`).  Only the variants the parser core raises are
modelled; the conversion errors raised by generated sinks carry the part name
and the raw bytes. -/
inductive PErr
  | requiredMissing (names : List Text)
  | sizeLimit (name : Text) (maxSize : Nat)
  | parseStrError (name : Text)
  | parseIntError (name : Text) (raw : List Nat)
deriving DecidableEq, Repr

/-- Observable calls the parser makes on the target and on the current part's
sink, in order. -/
inductive Ev
  /-- `ProcessContent::open(headers)` for the part named `name`. -/
  | sinkOpen (name : Text)
  /-- `ProcessContent::write(headers, data)`. -/
  | sinkWrite (data : List Nat)
  /-- `ProcessContent::flush(headers)`. -/
  | sinkFlush
  /-- `MultipartParserTarget::error(e)`. -/
  | errCall (e : PErr)
  /-- `MultipartParserTarget::finish()`. -/
  | finish
deriving DecidableEq, Repr

/-- `MultipartParserState`. -/
inductive PState
  | boundaryFirst
  | header
  | postHeader
  | content
  | postBoundary
  | finished
deriving DecidableEq, Repr

/-- The four delimiter byte strings plus the header-line terminator, as
precomputed by `new_from_vec` with `BoundaryBuilder`. -/
structure Bounds where
  first : List Nat
  middle : List Nat
  divider : List Nat
  epilogue : List Nat
  empty : List Nat
deriving DecidableEq, Repr

/-- `new_from_vec`'s construction of the delimiters from the boundary token:
`first = "--" B "\r\n"`, `middle = "\r\n--" B`, `divider = "\r\n"`,
`epilogue = "--"`, `empty = "\r\n"`. -/
def mkBounds (b : List Nat) : Bounds :=
  { first := [45, 45] ++ b ++ [13, 10]
    middle := [13, 10, 45, 45] ++ b
    divider := [13, 10]
    epilogue := [45, 45]
    empty := [13, 10] }

/-- The mutable fields of `MultipartParser`. -/
structure ParserSt where
  state : PState
  comparePos : Nat
  contentStart : Nat
  contentEnd : Nat
  contentSize : Nat
  contentSizeMax : Option Nat
  bufPos : Nat
  headersBuilder : HeadersBuilder
  headers : Option HeadersM
  /-- `process_content`: `some` models `Some(Box<ProcessContent>)` holding the
  sink's declared parameters; the sink's own state lives outside the parser
  and is reconstructed from the event trace. -/
  processParams : Option ProcessParams
  unprocessed : List Text
  onError : OnError
  errorFired : Bool
deriving DecidableEq, Repr

/-- The caller-supplied target: the sink dispatcher
(`content_parser_generated`, which may panic) and the error handler, which may
answer with a disposition or with an I/O error that aborts the stream. -/
structure Target where
  dispatch : HeadersM → Except Fatal (Option ProcessParams)
  handleError : PErr → Except Unit OnError

/-- `Vec::remove_item`: delete the first occurrence. -/
def removeItem (x : Text) : List Text → List Text
  | [] => []
  | a :: as => if a = x then as else a :: removeItem x as

/-- `compare_at`: compare `c` with `vec[pos]`; an out-of-range index is a
panic.  Returns `(byte matched, delimiter complete)`. -/
def compareAt (c : Nat) (vec : List Nat) (pos : Nat) : Except Fatal (Bool × Bool) :=
  match vec[pos]? with
  | none => .error .idxOut
  | some b => if c = b then .ok (true, pos + 1 = vec.length) else .ok (false, false)

/-- `to_header`. -/
def toHeader (st : ParserSt) : ParserSt :=
  { st with comparePos := 0, headers := none, state := .header }

/-- `to_header_continue`. -/
def toHeaderContinue (st : ParserSt) : ParserSt :=
  { st with comparePos := 0, state := .header }

/-- `to_post_header`: flush the current header line into the builder. -/
def toPostHeader (st : ParserSt) : ParserSt :=
  { st with
    comparePos := 0, headersBuilder := hbFlush st.headersBuilder,
    state := .postHeader }

/-- `to_post_boundary`. -/
def toPostBoundary (st : ParserSt) : ParserSt :=
  { st with contentStart := 0, comparePos := 0, state := .postBoundary }

/-- `to_finished`. -/
def toFinished (st : ParserSt) : ParserSt :=
  { st with state := .finished }

/-- `processor_open`: `open` is forwarded only when both a sink and headers
are present. -/
def processorOpen (st : ParserSt) : List Ev :=
  match st.processParams, st.headers with
  | some pp, some _ => [Ev.sinkOpen pp.name]
  | _, _ => []

/-- `processor_flush`. -/
def processorFlush (st : ParserSt) : List Ev :=
  match st.processParams, st.headers with
  | some _, some _ => [Ev.sinkFlush]
  | _, _ => []

/-- The size-limit paragraph of `processor_write_from_to` (reached only when
a sink is present): when `content_size_max` is set, bump `content_size` by
the write's length `delta` and, on overflow with the `ContinueWithError`
disposition, consult the error handler with `SizeLimit(name, max_size)`,
store its answer in `on_error` and clear `content_size_max`; a handler `Err`
aborts the stream. -/
def sizeCheck (tgt : Target) (pp : ProcessParams) (st : ParserSt)
    (delta : Nat) : Except Abort (ParserSt × List Ev) :=
  match st.contentSizeMax with
  | none => .ok (st, [])
  | some maxSize =>
    if st.contentSize + delta > maxSize then
      match st.onError with
      | .skip => .ok ({ st with contentSize := st.contentSize + delta }, [])
      | .continueWithoutError =>
        .ok ({ st with contentSize := st.contentSize + delta }, [])
      | .continueWithError =>
        match tgt.handleError (.sizeLimit pp.name maxSize) with
        | .ok d =>
          .ok ({ st with
                 contentSize := st.contentSize + delta,
                 onError := d, contentSizeMax := none },
            [Ev.errCall (.sizeLimit pp.name maxSize)])
        | .error _ => .error .ioError
    else .ok ({ st with contentSize := st.contentSize + delta }, [])

/-- `processor_write_from_to`: skip everything when the disposition is
`Skip`; otherwise, when a size limit is set, run the size check; then forward
`buf[from..to]` to the sink.  A bad slice range is a panic. -/
def processorWriteFromTo (tgt : Target) (st : ParserSt) (buf : List Nat)
    (f t : Nat) : Except Abort (ParserSt × List Ev) :=
  if st.onError = .skip then .ok (st, [])
  else
    match st.processParams with
    | none => .ok (st, [])
    | some pp =>
      match sizeCheck tgt pp st (t - f) with
      | .error a => .error a
      | .ok (st2, evs) =>
        match st2.headers with
        | none => .ok (st2, evs)
        | some _ =>
          if f ≤ t ∧ t ≤ buf.length then
            .ok (st2, evs ++ [Ev.sinkWrite ((buf.drop f).take (t - f))])
          else .error (.fatal .idxOut)

/-- `processor_write`: forward `buf[content_start..content_end]`. -/
def processorWrite (tgt : Target) (st : ParserSt) (buf : List Nat) :
    Except Abort (ParserSt × List Ev) :=
  processorWriteFromTo tgt st buf st.contentStart st.contentEnd

/-- `processor_write_sym`: forward the one-byte array `[c]`. -/
def processorWriteSym (tgt : Target) (st : ParserSt) (c : Nat) :
    Except Abort (ParserSt × List Ev) :=
  processorWriteFromTo tgt st [c] 0 1

/-- `process_boundary_first`: match against `first`; completion enters
`Header`, a mismatching byte panics. -/
def processBoundaryFirst (bd : Bounds) (st : ParserSt) (c : Nat) :
    Except Abort ParserSt :=
  match compareAt c bd.first st.comparePos with
  | .error p => .error (.fatal p)
  | .ok (symEq, bEq) =>
    if bEq then .ok (toHeader st)
    else if !symEq then .error (.fatal .badFirstBoundary)
    else .ok { st with comparePos := st.comparePos + 1 }

/-- The replay loop `for i in 1..compare_pos_last { process_header(empty[i]) }`
shared by `process_header` and `process_post_header`; `k` counts remaining
iterations, `i` is the index into `empty`. -/
def replayHeader (empty : List Nat)
    (f : ParserSt → Nat → Except Abort ParserSt) :
    Nat → Nat → ParserSt → Except Abort ParserSt
  | 0, _, st => .ok st
  | k + 1, i, st =>
    match empty[i]? with
    | none => .error (.fatal .idxOut)
    | some e =>
      match f st e with
      | .error a => .error a
      | .ok st2 => replayHeader empty f k (i + 1) st2

/-- `process_header`: match against `empty` (`\r\n`); on completion flush the
line and enter `PostHeader`; on mismatch after a partial match, retroactively
write `empty[0]` to the builder and replay `empty[1..cp)` through the same
handler (the mismatching byte itself is not reprocessed).  The recursion of
the Rust code is bounded by the length of `empty`; `fuel` makes it
structural. -/
def processHeaderF (bd : Bounds) : Nat → ParserSt → Nat → Except Abort ParserSt
  | 0, _, _ => .error (.fatal .fuelOut)
  | fuel + 1, st, c =>
    match compareAt c bd.empty st.comparePos with
    | .error p => .error (.fatal p)
    | .ok (symEq, bEq) =>
      if bEq then .ok (toPostHeader st)
      else if symEq then .ok { st with comparePos := st.comparePos + 1 }
      else if st.comparePos > 0 then
        match bd.empty[0]? with
        | none => .error (.fatal .idxOut)
        | some e0 =>
          let last := st.comparePos
          let st1 := { st with
            headersBuilder := hbWrite st.headersBuilder e0, comparePos := 0 }
          replayHeader bd.empty (processHeaderF bd fuel) (last - 1) 1 st1
      else .ok { st with headersBuilder := hbWrite st.headersBuilder c }

/-- `to_content`: build the part's `Headers` (which may panic on an ill-formed
line), ask the target for a sink, record its `max_size`, drop the part's name
from the unseen-required list, call `open`, and enter `Content`. -/
def toContent (tgt : Target) (st : ParserSt) : Except Abort (ParserSt × List Ev) :=
  let st0 := { st with
    contentStart := st.bufPos, contentSize := 0,
    onError := OnError.continueWithError, errorFired := false }
  match hbBuild st0.headersBuilder with
  | .error p => .error (.fatal p)
  | .ok (hs, hb) =>
    match tgt.dispatch hs with
    | .error p => .error (.fatal p)
    | .ok pp? =>
      let maxSize := match pp? with
        | some pp => pp.maxSize
        | none => none
      let unproc := match headersGetName hs with
        | some n => removeItem n st0.unprocessed
        | none => st0.unprocessed
      let st1 := { st0 with
        headersBuilder := hb, headers := some hs,
        processParams := pp?, contentSizeMax := maxSize, unprocessed := unproc }
      .ok ({ st1 with comparePos := 0, state := .content }, processorOpen st1)

/-- `process_post_header`: a second `\r\n` enters `Content`; a partial-match
failure retroactively writes `empty[0]` to the builder, replays the matched
prefix and returns to `Header` (again the mismatching byte is not
reprocessed). -/
def processPostHeader (tgt : Target) (bd : Bounds) (st : ParserSt) (c : Nat) :
    Except Abort (ParserSt × List Ev) :=
  match compareAt c bd.empty st.comparePos with
  | .error p => .error (.fatal p)
  | .ok (symEq, bEq) =>
    if bEq then toContent tgt st
    else if symEq then .ok ({ st with comparePos := st.comparePos + 1 }, [])
    else
      match bd.empty[0]? with
      | none => .error (.fatal .idxOut)
      | some e0 =>
        let last := st.comparePos
        let st1 := { st with
          headersBuilder := hbWrite st.headersBuilder e0, comparePos := 0 }
        match replayHeader bd.empty (processHeaderF bd 8) (last - 1) 1 st1 with
        | .error a => .error a
        | .ok st2 => .ok (toHeaderContinue st2, [])

/-- The `while pos < to` loop of `flow_content`: walk the already-consumed
bytes `middle[from..to)`, breaking at the first position whose byte matches
`middle` at that same position (note: the source compares `middle[pos]` with
`middle[pos]`), writing `middle[from..pos)` to the sink if anything was
stepped over; the returned `Nat` is `to - pos`, the new `compare_pos`. -/
def flowGo (tgt : Target) (bd : Bounds) (f t : Nat) :
    Nat → Nat → ParserSt → Except Abort (ParserSt × List Ev × Nat)
  | 0, pos, st => .ok (st, [], t - pos)
  | k + 1, pos, st =>
    if pos < t then
      match bd.middle[pos]? with
      | none => .error (.fatal .idxOut)
      | some c =>
        match compareAt c bd.middle pos with
        | .error p => .error (.fatal p)
        | .ok (symEq, _) =>
          if symEq then
            if pos > f then
              match processorWriteFromTo tgt st bd.middle f pos with
              | .error a => .error a
              | .ok (st2, evs) => .ok (st2, evs, t - pos)
            else .ok (st, [], t - pos)
          else flowGo tgt bd f t k (pos + 1) st
    else .ok (st, [], t - pos)

/-- `flow_content`. -/
def flowContent (tgt : Target) (bd : Bounds) (st : ParserSt) (f t : Nat) :
    Except Abort (ParserSt × List Ev × Nat) :=
  flowGo tgt bd f t (t - f) f st

/-- `process_content`: match against `middle`; on completion flush the sink
and enter `PostBoundary`; a fresh candidate (`cp = 0` match) first writes the
pending `buf[content_start..buf_pos)`; a failed candidate writes `middle[0]`
and resynchronizes through `flow_content`. -/
def processContent (tgt : Target) (bd : Bounds) (st : ParserSt) (buf : List Nat)
    (c : Nat) : Except Abort (ParserSt × List Ev) :=
  match compareAt c bd.middle st.comparePos with
  | .error p => .error (.fatal p)
  | .ok (symEq, bEq) =>
    if bEq then .ok (toPostBoundary st, processorFlush st)
    else if symEq then
      if st.comparePos = 0 then
        let st1 := { st with contentEnd := st.bufPos }
        match processorWrite tgt st1 buf with
        | .error a => .error a
        | .ok (st2, evs) => .ok ({ st2 with comparePos := st2.comparePos + 1 }, evs)
      else .ok ({ st with comparePos := st.comparePos + 1 }, [])
    else
      if st.comparePos > 0 then
        match bd.middle[0]? with
        | none => .error (.fatal .idxOut)
        | some m0 =>
          match processorWriteSym tgt st m0 with
          | .error a => .error a
          | .ok (st2, evs) =>
            if st2.comparePos > 1 then
              match flowContent tgt bd st2 1 st2.comparePos with
              | .error a => .error a
              | .ok (st3, evs2, newPos) =>
                .ok ({ st3 with comparePos := newPos }, evs ++ evs2)
            else .ok ({ st2 with comparePos := 0 }, evs)
      else .ok (st, [])

/-- `process_post_boundary`: compare `c` against both `divider` and
`epilogue` at the shared cursor (either compare panics once the cursor runs
past their two bytes); completion of `divider` starts a new part, completion
of `epilogue` finishes, anything else advances the cursor. -/
def processPostBoundary (bd : Bounds) (st : ParserSt) (c : Nat) :
    Except Abort ParserSt :=
  match compareAt c bd.divider st.comparePos with
  | .error p => .error (.fatal p)
  | .ok (_, divEq) =>
    match compareAt c bd.epilogue st.comparePos with
    | .error p => .error (.fatal p)
    | .ok (_, epiEq) =>
      let st1 := if divEq then toHeader st else st
      let st2 := if epiEq then toFinished st1 else st1
      if !divEq && !epiEq then .ok { st2 with comparePos := st2.comparePos + 1 }
      else .ok st2

/-- One iteration of the byte loop in `Write::write`. -/
def stepByte (tgt : Target) (bd : Bounds) (buf : List Nat) (st : ParserSt)
    (pos c : Nat) : Except Abort (ParserSt × List Ev) :=
  let st := { st with bufPos := pos }
  match st.state with
  | .boundaryFirst =>
    match processBoundaryFirst bd st c with
    | .error a => .error a
    | .ok st2 => .ok (st2, [])
  | .header =>
    match processHeaderF bd 8 st c with
    | .error a => .error a
    | .ok st2 => .ok (st2, [])
  | .postHeader => processPostHeader tgt bd st c
  | .content => processContent tgt bd st buf c
  | .postBoundary =>
    match processPostBoundary bd st c with
    | .error a => .error a
    | .ok st2 => .ok (st2, [])
  | .finished => .ok (st, [])

/-- The byte loop of `Write::write` from position `pos` over the remaining
bytes of `buf`. -/
def writeLoop (tgt : Target) (bd : Bounds) (buf : List Nat) :
    Nat → List Nat → ParserSt → Except Abort (ParserSt × List Ev)
  | _, [], st => .ok (st, [])
  | pos, c :: rest, st =>
    match stepByte tgt bd buf st pos c with
    | .error a => .error a
    | .ok (st2, evs) =>
      match writeLoop tgt bd buf (pos + 1) rest st2 with
      | .error a => .error a
      | .ok (st3, evs2) => .ok (st3, evs ++ evs2)

/-- `Write::write(buf)`: reset `content_start` and process every byte. -/
def parserWrite (tgt : Target) (bd : Bounds) (st : ParserSt) (buf : List Nat) :
    Except Abort (ParserSt × List Ev) :=
  writeLoop tgt bd buf 0 buf { st with contentStart := 0 }

/-- Feed a list of chunks to `write` in order. -/
def writeChunks (tgt : Target) (bd : Bounds) :
    ParserSt → List (List Nat) → Except Abort (ParserSt × List Ev)
  | st, [] => .ok (st, [])
  | st, b :: bs =>
    match parserWrite tgt bd st b with
    | .error a => .error a
    | .ok (st2, evs) =>
      match writeChunks tgt bd st2 bs with
      | .error a => .error a
      | .ok (st3, evs2) => .ok (st3, evs ++ evs2)

/-- `Write::flush`: report the still-unseen required names (discarding the
handler's answer), then call `finish`. -/
def parserFlush (tgt : Target) (st : ParserSt) : ParserSt × List Ev :=
  if st.unprocessed.isEmpty then (st, [Ev.finish])
  else
    let _ := tgt.handleError (.requiredMissing st.unprocessed)
    (st, [Ev.errCall (.requiredMissing st.unprocessed), Ev.finish])

/-- The initial parser state of `new_from_vec`, with `unprocessed` taken from
`get_all_required`. -/
def initSt (required : List Text) : ParserSt :=
  { state := .boundaryFirst, comparePos := 0, contentStart := 0, contentEnd := 0,
    contentSize := 0, contentSizeMax := none, bufPos := 0,
    headersBuilder := ⟨[], []⟩, headers := none, processParams := none,
    unprocessed := required, onError := .continueWithError, errorFired := false }

/-- One `#[multipart(...)]` field of a derived record. -/
structure FieldDesc where
  name : Text
  maxSize : Option Nat
  required : Bool
deriving DecidableEq, Repr

/-- The generated `get_all_required`: names of the `required = true` fields in
declaration order. -/
def getAllRequired (fields : List FieldDesc) : List Text :=
  (fields.filter (·.required)).map (·.name)

/-- The generated `content_parser_generated`: unwrap `get_name()` (panicking
when it is `None`), then match the name against the record's fields, falling
back to the user's `content_parser` hook. -/
def genDispatch (fields : List FieldDesc)
    (fallback : HeadersM → Option ProcessParams) (hs : HeadersM) :
    Except Fatal (Option ProcessParams) :=
  match headersGetName hs with
  | none => .error .unwrapNone
  | some name =>
    match fields.find? (fun fd => fd.name == name) with
    | some fd => .ok (some ⟨fd.name, fd.maxSize⟩)
    | none => .ok (fallback hs)

/-- A derived record's target: the generated dispatcher with the default
(`None`-returning) `content_parser` hook, plus an error handler. -/
def genTarget (fields : List FieldDesc) (h : PErr → Except Unit OnError) : Target :=
  { dispatch := genDispatch fields (fun _ => none), handleError := h }

/-- `DefaultProcessor`: the accumulating sink. -/
structure DefaultProcessor where
  rawData : List Nat
  isDone : Bool
deriving DecidableEq, Repr

/-- `DefaultProcessor::open`. -/
def dpOpen (p : DefaultProcessor) : DefaultProcessor :=
  if p.isDone then ⟨[], false⟩ else p

/-- `DefaultProcessor::write`: appending after `flush` is a panic. -/
def dpWrite (p : DefaultProcessor) (data : List Nat) : Except Fatal DefaultProcessor :=
  if !p.isDone then .ok { p with rawData := p.rawData ++ data }
  else .error .writeAfterFlush

/-- `DefaultProcessor::flush`. -/
def dpFlush (p : DefaultProcessor) : DefaultProcessor :=
  { p with isDone := true }

/-- Replay a single-part event trace into the part's `DefaultProcessor` (the
proxy sink generated for a bound field forwards `open`/`write`/`flush`
verbatim). -/
def runSink : DefaultProcessor → List Ev → Except Fatal DefaultProcessor
  | p, [] => .ok p
  | p, Ev.sinkOpen _ :: r => runSink (dpOpen p) r
  | p, Ev.sinkWrite d :: r =>
    match dpWrite p d with
    | .error a => .error a
    | .ok p2 => runSink p2 r
  | p, Ev.sinkFlush :: r => runSink (dpFlush p) r
  | p, _ :: r => runSink p r

/-- The value a `String`-typed bound field receives at generated `flush` time:
`String::try_from(processor)` over the accumulated bytes. -/
def storedString (evs : List Ev) : Option Text :=
  match runSink ⟨[], false⟩ evs with
  | .ok p => utf8Decode p.rawData
  | .error _ => none

/-- The bytes accumulated by the part's sink. -/
def storedBytes (evs : List Ev) : Option (List Nat) :=
  match runSink ⟨[], false⟩ evs with
  | .ok p => some p.rawData
  | .error _ => none

/-- The payloads of the `write` calls of a trace, in order. -/
def writePayloads : List Ev → List (List Nat)
  | [] => []
  | Ev.sinkWrite d :: r => d :: writePayloads r
  | _ :: r => writePayloads r

/-- Names carried by the `open` calls of a trace, in order. -/
def openedNames : List Ev → List Text
  | [] => []
  | Ev.sinkOpen n :: r => n :: openedNames r
  | _ :: r => openedNames r

/-- Number of `SizeLimit` error callbacks in a trace. -/
def countSizeLimit : List Ev → Nat
  | [] => 0
  | Ev.errCall (PErr.sizeLimit _ _) :: r => countSizeLimit r + 1
  | _ :: r => countSizeLimit r

instance {ε α : Type} [DecidableEq ε] [DecidableEq α] : DecidableEq (Except ε α)
  | .error a, .error b =>
    if h : a = b then isTrue (by rw [h]) else isFalse (by intro hh; cases hh; exact h rfl)
  | .error _, .ok _ => isFalse (by intro h; cases h)
  | .ok _, .error _ => isFalse (by intro h; cases h)
  | .ok a, .ok b =>
    if h : a = b then isTrue (by rw [h]) else isFalse (by intro hh; cases hh; exact h rfl)

/-- Event list of a finished run, `none` when the run aborted. -/
def evsOf : Except Abort (ParserSt × List Ev) → Option (List Ev)
  | .ok (_, evs) => some evs
  | .error _ => none

/-- The error-handler calls of a trace, in order. -/
def errCalls : List Ev → List PErr
  | [] => []
  | Ev.errCall e :: r => e :: errCalls r
  | _ :: r => errCalls r

/-- Delimiters for the boundary token `X` used by the spec's end-to-end
scenarios. -/
def bX : Bounds := mkBounds (str "X")

/-- An error handler that always answers `ContinueWithError`. -/
def handlerCWE : PErr → Except Unit OnError := fun _ => .ok .continueWithError

/-- An error handler that always answers `Skip`. -/
def handlerSkip : PErr → Except Unit OnError := fun _ => .ok .skip

/-- A derived record with one `String` field `s` (no limit, not required). -/
def tgtS : Target := genTarget [⟨str "s", none, false⟩] handlerCWE

/-- The spec's scenario-1 input,
`--X\r\nContent-Disposition: form-data; name="s"\r\n\r\nhello\r\n--X--`. -/
def inputSingle : List Nat :=
  str "--X\r\nContent-Disposition: form-data; name=\"s\"\r\n\r\nhello\r\n--X--"

/-- Scenario-1 input up to and including the blank line's `\n`. -/
def chunkHeadS : List Nat :=
  str "--X\r\nContent-Disposition: form-data; name=\"s\"\r\n\r\n"

/-- The rest of the scenario-1 input: the body and the closing boundary. -/
def chunkTailS : List Nat := str "hello\r\n--X--"

/-- A derived record with one field `p`, `max_size = 1`, handler answering
`ContinueWithError`. -/
def tgtP1 : Target := genTarget [⟨str "p", some 1, false⟩] handlerCWE

/-- A derived record with one field `p`, `max_size = 3`, handler answering
`Skip`. -/
def tgtP3skip : Target := genTarget [⟨str "p", some 3, false⟩] handlerSkip

/-- Headers-plus-blank-line chunk for a part named `p`. -/
def chunkHeadP : List Nat :=
  str "--X\r\nContent-Disposition: form-data; name=\"p\"\r\n\r\n"

/-- The generated `flush` of the proxy sink for a `String`-bound field
(`impl_process_content` in `multipart_field.rs`): forward `flush` to the
accumulating sink, then run `String::try_from(processor)`; on success the
value is stored into the record's field, on failure the record's error
handler is invoked with the typed conversion error (`ParseStrError` via
`to_multipart_parse_error`), its result is bound to `_unused` and discarded,
and the field keeps its previous value.  Returns the sink, the field's value
after the flush and the error calls made. -/
def genFlushString (hnd : PErr → Except Unit OnError) (name : Text)
    (p : DefaultProcessor) (old : Text) : DefaultProcessor × Text × List PErr :=
  let p2 := dpFlush p
  match utf8Decode p2.rawData with
  | some s => (p2, s, [])
  | none =>
    let _ := hnd (.parseStrError name)
    (p2, old, [.parseStrError name])

/-- A parser state sitting in `PostBoundary` with a fresh cursor. -/
def stPB : ParserSt := { initSt [] with state := .postBoundary }

/-- `stPB` after two unexpected bytes have been swallowed: the shared cursor
has run past the two-byte `divider`/`epilogue`. -/
def stPB2 : ParserSt := { stPB with comparePos := 2 }

/-- A part closed by a middle boundary and followed by the junk bytes `abc`
instead of `\r\n` or `--`. -/
def inputPBJunk : List Nat :=
  str "--X\r\nContent-Disposition: form-data; name=\"s\"\r\n\r\nhi\r\n--Xabc"

/-- A concrete mid-`Content` state with limit 3. -/
def stWit2 : ParserSt :=
  { initSt [] with
    state := .content, processParams := some ⟨str "p", some 3⟩,
    contentSizeMax := some 3, headers := some ⟨[]⟩ }

/-- `stWit2` after the limit has been cleared. -/
def stWit3 : ParserSt := { stWit2 with contentSizeMax := none }

/-- `stWit2` with the `skip` disposition in force. -/
def stWitSkip : ParserSt := { stWit2 with onError := .skip }

/-- A parameter value that is neither quote-headed nor quote-tailed. -/
def QuoteFree (v : Text) : Prop :=
  v.head? ≠ some 34 ∧ v.getLast? ≠ some 34

/-- The parameter `param` of a parsed header line, when the line parses. -/
def headerParamOf (line param : Text) : Option Text :=
  match headerNew line with
  | .ok h => lookupKV param h.fields
  | .error _ => none

/-- Fold `Vec::remove_item` over a list of names, as the parser does once per
opened part. -/
def removeList (l : List Text) (names : List Text) : List Text :=
  names.foldl (fun acc n => removeItem n acc) l

/-- How one parser step of a derived record may touch the unseen-required
list: either it leaves it alone and opens nothing, or it enters `Content`
for a part named `n` — removing `n` and opening a sink exactly when `n` is
one of the record's field names. -/
def StepOpens (fields : List FieldDesc) (st st2 : ParserSt)
    (evs : List Ev) : Prop :=
  (st2.unprocessed = st.unprocessed ∧ openedNames evs = []) ∨
  (∃ n, st2.unprocessed = removeItem n st.unprocessed ∧
    ((openedNames evs = [n] ∧ n ∈ fields.map (·.name)) ∨
     (openedNames evs = [] ∧ n ∉ fields.map (·.name))))

end Multipart

namespace Multipart

set_option maxRecDepth 8000

/-- Claim C1 (code bug): claimed — feeding any contiguous chunking of a
well-formed input to `write` yields the same per-part `{open, write*, flush}`
sequence as feeding it at once, with the write payloads concatenating to the
exact body.  The code violates this: `content_start` is reset to `0` at every
`write` call but otherwise set to the buffer index of the blank line's `\n`
(`to_content`), so the single-chunk run of scenario 1 delivers `"\nhello"`
(the terminating LF of the header block leaks into the body) while the same
bytes split after the blank line deliver `"hello"`.  The traces differ, and
neither claim conjunct survives: the single-chunk payload is not the exact
body. -/
theorem chunking_not_invariant :
    evsOf (writeChunks tgtS bX (initSt []) [inputSingle]) =
      some [Ev.sinkOpen (str "s"), Ev.sinkWrite (str "\nhello"), Ev.sinkFlush] ∧
    evsOf (writeChunks tgtS bX (initSt []) [chunkHeadS, chunkTailS]) =
      some [Ev.sinkOpen (str "s"), Ev.sinkWrite (str "hello"), Ev.sinkFlush] ∧
    chunkHeadS ++ chunkTailS = inputSingle ∧
    evsOf (writeChunks tgtS bX (initSt []) [inputSingle]) ≠
      evsOf (writeChunks tgtS bX (initSt []) [chunkHeadS, chunkTailS]) := by
  refine ⟨by decide, by decide, by decide, by decide⟩

/-- Claim C2 (code bug): claimed — parsing the scenario-1 input in one chunk
stores exactly the five bytes `"hello"` in `s` with no error-handler call.
The run indeed makes no error call, but the single `write` delivers
`"\nhello"`, so the `String` conversion at generated-`flush` time stores the
six bytes `"\nhello"`, not `"hello"`. -/
theorem single_string_part_stores_lf_hello :
    evsOf (writeChunks tgtS bX (initSt []) [inputSingle]) =
      some [Ev.sinkOpen (str "s"), Ev.sinkWrite (str "\nhello"), Ev.sinkFlush] ∧
    errCalls [Ev.sinkOpen (str "s"), Ev.sinkWrite (str "\nhello"), Ev.sinkFlush]
      = [] ∧
    storedString [Ev.sinkOpen (str "s"), Ev.sinkWrite (str "\nhello"),
      Ev.sinkFlush] = some (str "\nhello") ∧
    str "\nhello" ≠ str "hello" ∧ (str "\nhello").length = 6 := by
  refine ⟨by decide, by decide, by decide, by decide, by decide⟩

/-- Claim C3 (code bug): claimed — the `Content` mismatch path emits
`middle[0]`, resynchronizes the consumed bytes `middle[1..cp)` by the
earliest suffix-prefix position, emits the bytes outside the new candidate,
and neither drops nor duplicates body bytes.  In the source, `flow_content`
compares `middle[pos]` with `middle[pos]` (trivially equal), so it always
stops at `pos = 1` emitting nothing and the mismatching byte is never
reprocessed.  For body `"a\r\n-zb"` (boundary `X`, headers fed as their own
chunk so the body arrives clean) the sink receives `"a" "\r" "\r" "\r"`:
the single body `\r` is triplicated, `\n`, `-`, `z`, `b` are dropped, and
the genuine closing boundary is missed, leaving the parser in `Content`. -/
theorem content_mismatch_drops_and_duplicates :
    writeChunks tgtS bX (initSt []) [chunkHeadS, str "a\r\n-zb\r\n--X--"] =
      .ok ({ state := .content, comparePos := 0, contentStart := 0,
             contentEnd := 1, contentSize := 0, contentSizeMax := none,
             bufPos := 12, headersBuilder := ⟨[], []⟩,
             headers := some ⟨[(str "Content-Disposition",
               ⟨str "Content-Disposition", str "form-data",
                 [(str "name", str "s")]⟩)]⟩,
             processParams := some ⟨str "s", none⟩, unprocessed := [],
             onError := .continueWithError, errorFired := false },
        [Ev.sinkOpen (str "s"), Ev.sinkWrite (str "a"), Ev.sinkWrite (str "\r"),
         Ev.sinkWrite (str "\r"), Ev.sinkWrite (str "\r")]) ∧
    (writePayloads [Ev.sinkOpen (str "s"), Ev.sinkWrite (str "a"),
      Ev.sinkWrite (str "\r"), Ev.sinkWrite (str "\r"),
      Ev.sinkWrite (str "\r")]).flatten = str "a\r\r\r" ∧
    (str "a\r\r\r").count 13 = 3 ∧ (str "a\r\n-zb").count 13 = 1 ∧
    122 ∈ str "a\r\n-zb" ∧ 122 ∉ str "a\r\r\r" := by
  refine ⟨by decide, by decide, by decide, by decide, by decide, by decide⟩

/-- Claim C4 counterexample: the claim says a malformed first boundary is
the only panic and that an ill-formed header line, unexpected bytes after a
middle boundary, and out-of-order sink use are all surfaced as typed errors
without aborting.  Three concrete refutations: feeding
`--X\r\nFoo\r\n\r\n` (header line `Foo`, which does not split into two
parts at `:`) aborts the run with the `Header::to_key_value` panic; feeding
a part closed by a middle boundary and followed by the junk bytes `abc`
aborts the run with an index-out-of-bounds panic (the shared `PostBoundary`
cursor runs past the two-byte `divider`/`epilogue`); and writing to the
accumulating sink after its `flush` aborts with the `DefaultProcessor`
panic.  None of the three reaches the record's error handler. -/
theorem claimed_nonfatal_anomalies_panic :
    writeChunks tgtS bX (initSt []) [str "--X\r\nFoo\r\n\r\n"] =
      .error (.fatal .badHeaderPart) ∧
    writeChunks tgtS bX (initSt []) [inputPBJunk] =
      .error (.fatal .idxOut) ∧
    dpWrite ⟨[], true⟩ [1] = .error .writeAfterFlush := by
  refine ⟨by decide, by decide, by decide⟩

/-- Claim C4 as amended: a malformed first boundary aborts with a panic, but
not uniquely.  Of the anomalies the claim lists: an ill-formed header line
(one whose first `:`-split does not have exactly two parts) also aborts with
a panic when the part's headers are built; unexpected bytes after a middle
boundary in the `PostBoundary` phase are not surfaced as typed errors — each
is silently swallowed (no handler call) while the shared cursor is within
the two-byte `divider`/`epilogue`, and once the cursor has run past them
(from the third unexpected byte on) the parser aborts with an
index-out-of-bounds panic; out-of-order sink use (`write` after `flush` on
the accumulating sink) aborts with a panic; a failed typed conversion, by
contrast, is surfaced as a typed error to the record's error handler at part
flush and does not abort the stream (the field keeps its previous value). -/
theorem fatal_and_typed_error_semantics :
    (∀ (bd : Bounds) (st : ParserSt) (c b : Nat),
      bd.first[st.comparePos]? = some b → c ≠ b →
      processBoundaryFirst bd st c = .error (.fatal .badFirstBoundary)) ∧
    (∀ (s a : Text) (rest : List Text), splitChar 59 s = a :: rest →
      (splitChar 58 a).length ≠ 2 →
      headerNew s = .error .badHeaderPart) ∧
    (∀ (bd : Bounds) (st : ParserSt) (c b1 b2 : Nat),
      bd.divider[st.comparePos]? = some b1 → c ≠ b1 →
      bd.epilogue[st.comparePos]? = some b2 → c ≠ b2 →
      processPostBoundary bd st c = .ok { st with comparePos := st.comparePos + 1 }) ∧
    (∀ (bd : Bounds) (st : ParserSt) (c : Nat),
      bd.divider.length ≤ st.comparePos →
      processPostBoundary bd st c = .error (.fatal .idxOut)) ∧
    (∀ (p : DefaultProcessor) (data : List Nat),
      p.isDone = true → dpWrite p data = .error .writeAfterFlush) ∧
    (∀ (hnd : PErr → Except Unit OnError) (name : Text)
      (p : DefaultProcessor) (old : Text),
      utf8Decode p.rawData = none →
      genFlushString hnd name p old = (dpFlush p, old, [.parseStrError name])) := by
  refine ⟨?_, ?_, ?_, ?_, ?_, ?_⟩
  · intro bd st c b hb hc
    simp [processBoundaryFirst, compareAt, hb, hc]
  · intro s a rest hsplit hlen
    unfold headerNew
    rw [hsplit]
    unfold toKeyValue
    rcases h58 : splitChar 58 a with _ | ⟨x, _ | ⟨y, _ | ⟨z, l⟩⟩⟩ <;>
      simp_all
  · intro bd st c b1 b2 h1 h2 h3 h4
    simp [processPostBoundary, compareAt, h1, h2, h3, h4]
  · intro bd st c hlen
    have hnone : bd.divider[st.comparePos]? = none :=
      List.getElem?_eq_none hlen
    simp [processPostBoundary, compareAt, hnone]
  · intro p data hdone
    simp [dpWrite, hdone]
  · intro hnd name p old hbad
    simp [genFlushString, dpFlush, hbad]

/-- Witness for the amended C4 at concrete inputs: byte `Z` against the
first boundary of token `X`; header line `Foo`; junk byte `a` swallowed in
`PostBoundary` and a third junk byte panicking; a write on a flushed sink;
and a `String` conversion of the invalid byte `0xFF` reporting
`ParseStrError` and leaving the field untouched. -/
theorem fatal_and_typed_error_semantics_witness :
    processBoundaryFirst bX (initSt []) 90 = .error (.fatal .badFirstBoundary) ∧
    headerNew (str "Foo") = .error .badHeaderPart ∧
    processPostBoundary bX stPB 97 = .ok { stPB with comparePos := 1 } ∧
    processPostBoundary bX stPB2 99 = .error (.fatal .idxOut) ∧
    dpWrite ⟨[], true⟩ [1] = .error .writeAfterFlush ∧
    genFlushString handlerCWE (str "s") ⟨[255], false⟩ (str "") =
      (⟨[255], true⟩, str "", [.parseStrError (str "s")]) := by
  refine ⟨?_, ?_, ?_, ?_, ?_, ?_⟩
  · exact fatal_and_typed_error_semantics.1 bX (initSt []) 90 45 (by decide)
      (by decide)
  · exact fatal_and_typed_error_semantics.2.1 (str "Foo") (str "Foo") []
      (by decide) (by decide)
  · exact fatal_and_typed_error_semantics.2.2.1 bX stPB 97 13 45 (by decide)
      (by decide) (by decide) (by decide)
  · exact fatal_and_typed_error_semantics.2.2.2.1 bX stPB2 99 (by decide)
  · exact fatal_and_typed_error_semantics.2.2.2.2.1 ⟨[], true⟩ [1] (by decide)
  · have h := fatal_and_typed_error_semantics.2.2.2.2.2 handlerCWE (str "s")
      ⟨[255], false⟩ (str "") (by decide)
    exact h.trans (by decide)

/-- Claim C5 counterexample: the claim says that after `SizeLimit` fires and
the handler answers `continue_with_error`, later overflows on the same part
may fire further `SizeLimit` errors.  In this run (limit 1, handler always
`ContinueWithError`) the writes after the first callback deliver 11 more
bytes — every one of them over the limit — yet exactly one `SizeLimit` is
ever fired, because the source clears `content_size_max` after the first
callback. -/
theorem size_limit_fires_only_once_run :
    evsOf (writeChunks tgtP1 bX (initSt []) [chunkHeadP, str "ab\rc\rd\r\n--X--"]) =
      some [Ev.sinkOpen (str "p"), Ev.errCall (.sizeLimit (str "p") 1),
        Ev.sinkWrite (str "ab"), Ev.sinkWrite (str "\r"),
        Ev.sinkWrite (str "ab\rc"), Ev.sinkWrite (str "\r"),
        Ev.sinkWrite (str "ab\rc\rd"), Ev.sinkFlush] ∧
    countSizeLimit [Ev.sinkOpen (str "p"), Ev.errCall (.sizeLimit (str "p") 1),
        Ev.sinkWrite (str "ab"), Ev.sinkWrite (str "\r"),
        Ev.sinkWrite (str "ab\rc"), Ev.sinkWrite (str "\r"),
        Ev.sinkWrite (str "ab\rc\rd"), Ev.sinkFlush] = 1 ∧
    (writePayloads [Ev.sinkOpen (str "p"), Ev.errCall (.sizeLimit (str "p") 1),
        Ev.sinkWrite (str "ab"), Ev.sinkWrite (str "\r"),
        Ev.sinkWrite (str "ab\rc"), Ev.sinkWrite (str "\r"),
        Ev.sinkWrite (str "ab\rc\rd"),
        Ev.sinkFlush]).flatten.length = 14 ∧ 14 > 1 := by
  refine ⟨by decide, by decide, by decide, by decide⟩

/-- Claim C5 as amended: when a part's cumulative `content_size` first
exceeds `max_size`, the handler is invoked with `SizeLimit(name, max_size)`
and, on `continue_with_error`, the parser keeps writing the remainder of the
part; however `content_size_max` is cleared by the callback, and with the
limit cleared no later write of the same part can fire another `SizeLimit`. -/
theorem size_limit_clears_max_size :
    (∀ (tgt : Target) (st : ParserSt) (buf : List Nat) (f t : Nat)
      (pp : ProcessParams) (maxSize : Nat) (hs : HeadersM),
      st.onError = .continueWithError →
      st.processParams = some pp →
      st.contentSizeMax = some maxSize →
      st.contentSize + (t - f) > maxSize →
      tgt.handleError (.sizeLimit pp.name maxSize) = .ok .continueWithError →
      st.headers = some hs →
      f ≤ t → t ≤ buf.length →
      processorWriteFromTo tgt st buf f t =
        .ok ({ st with
               contentSize := st.contentSize + (t - f),
               contentSizeMax := none, onError := .continueWithError },
          [Ev.errCall (.sizeLimit pp.name maxSize),
           Ev.sinkWrite ((buf.drop f).take (t - f))])) ∧
    (∀ (tgt : Target) (st : ParserSt) (buf : List Nat) (f t : Nat)
      (st2 : ParserSt) (evs : List Ev),
      st.contentSizeMax = none →
      processorWriteFromTo tgt st buf f t = .ok (st2, evs) →
      countSizeLimit evs = 0 ∧ st2.contentSizeMax = none) := by
  constructor
  · intro tgt st buf f t pp maxSize hs h1 h2 h3 h4 h5 h6 h7 h8
    simp [processorWriteFromTo, sizeCheck, h1, h2, h3, h4, h5, h6, h7, h8]
  · intro tgt st buf f t st2 evs hmax hrun
    by_cases hsk : st.onError = .skip
    · simp [processorWriteFromTo, sizeCheck, hsk] at hrun
      obtain ⟨h1, h2⟩ := hrun
      subst h1
      subst h2
      simp [countSizeLimit, hmax]
    · rcases hpp : st.processParams with _ | pp
      · simp [processorWriteFromTo, sizeCheck, hsk, hpp] at hrun
        obtain ⟨h1, h2⟩ := hrun
        subst h1
        subst h2
        simp [countSizeLimit, hmax]
      · rcases hh : st.headers with _ | hs
        · simp [processorWriteFromTo, sizeCheck, hsk, hpp, hmax, hh] at hrun
          obtain ⟨h1, h2⟩ := hrun
          subst h1
          subst h2
          simp [countSizeLimit, hmax]
        · by_cases hr : f ≤ t ∧ t ≤ buf.length
          · simp [processorWriteFromTo, sizeCheck, hsk, hpp, hmax, hh, hr] at hrun
            obtain ⟨h1, h2⟩ := hrun
            subst h1
            subst h2
            simp [countSizeLimit, hmax]
          · simp [processorWriteFromTo, sizeCheck, hsk, hpp, hmax, hh, hr] at hrun

/-- Witness for the amended C5 at concrete inputs: a 4-byte write against
limit 3 fires and clears the limit, and a write with the limit already
cleared fires nothing. -/
theorem size_limit_clears_max_size_witness :
    processorWriteFromTo tgtS stWit2 (str "abcd") 0 4 =
      .ok ({ stWit2 with
             contentSize := 4, contentSizeMax := none,
             onError := .continueWithError },
        [Ev.errCall (.sizeLimit (str "p") 3), Ev.sinkWrite (str "abcd")]) ∧
    (countSizeLimit [Ev.sinkWrite (str "xy")] = 0 ∧
      stWit3.contentSizeMax = none) := by
  constructor
  · have h := size_limit_clears_max_size.1 tgtS stWit2 (str "abcd") 0 4
      ⟨str "p", some 3⟩ 3 ⟨[]⟩ rfl rfl rfl (by decide) rfl rfl (by decide)
      (by decide)
    exact h.trans (by decide)
  · exact size_limit_clears_max_size.2 tgtS stWit3 (str "xy") 0 2 stWit3
      [Ev.sinkWrite (str "xy")] rfl (by decide)

/-- Claim C6 counterexample: the claim says that with `max_size = 3`, body
`"abcdef"` and a handler answering `skip`, at most 3 bytes reach the sink.
In the actual run the write that first exceeds the limit is still delivered
after the handler answers, so all 6 bytes reach the sink and the stored
value has 6 bytes. -/
theorem skip_disposition_still_delivers_trigger_write :
    evsOf (writeChunks tgtP3skip bX (initSt []) [chunkHeadP, str "abcdef\r\n--X--"]) =
      some [Ev.sinkOpen (str "p"), Ev.errCall (.sizeLimit (str "p") 3),
        Ev.sinkWrite (str "abcdef"), Ev.sinkFlush] ∧
    storedBytes [Ev.sinkOpen (str "p"), Ev.errCall (.sizeLimit (str "p") 3),
      Ev.sinkWrite (str "abcdef"), Ev.sinkFlush] = some (str "abcdef") ∧
    (str "abcdef").length = 6 ∧ ¬ (6 ≤ 3) := by
  refine ⟨by decide, by decide, by decide, by decide⟩

/-- Claim C6 as amended: once the `skip` disposition is in effect for a part,
no later `write` call delivers any bytes to its sink; the write during which
the handler first answered `skip` is itself still delivered, so the bytes
reaching the sink can exceed `max_size` — with `max_size = 3` and body
`"abcdef"` arriving in one write, all 6 bytes are stored. -/
theorem skip_blocks_later_writes :
    (∀ (tgt : Target) (st : ParserSt) (buf : List Nat) (f t : Nat),
      st.onError = .skip →
      processorWriteFromTo tgt st buf f t = .ok (st, [])) ∧
    evsOf (writeChunks tgtP3skip bX (initSt []) [chunkHeadP, str "abcdef\r\n--X--"]) =
      some [Ev.sinkOpen (str "p"), Ev.errCall (.sizeLimit (str "p") 3),
        Ev.sinkWrite (str "abcdef"), Ev.sinkFlush] := by
  constructor
  · intro tgt st buf f t hsk
    simp [processorWriteFromTo, sizeCheck, hsk]
  · decide

/-- Witness for the amended C6: a concrete write on a part already in `skip`
delivers nothing. -/
theorem skip_blocks_later_writes_witness :
    processorWriteFromTo tgtP3skip stWitSkip (str "zz") 0 2 =
      .ok (stWitSkip, []) :=
  skip_blocks_later_writes.1 tgtP3skip stWitSkip (str "zz") 0 2 rfl

/-- The head of a `dropWhile` result never satisfies the dropped predicate. -/
theorem head_dropWhile_false {p : Nat → Bool} :
    ∀ {l : Text} {a : Nat}, (l.dropWhile p).head? = some a → p a = false := by
  intro l
  induction l with
  | nil => intro a h; simp [List.dropWhile] at h
  | cons c cs ih =>
    intro a h
    by_cases hc : p c
    · rw [List.dropWhile_cons_of_pos hc] at h
      exact ih h
    · rw [List.dropWhile_cons_of_neg hc] at h
      simp at h
      subst h
      simpa using hc

/-- The last element of `dropRightWhile` never satisfies the predicate. -/
theorem getLast_dropRightWhile_false {p : Nat → Bool} {l : Text} {a : Nat}
    (h : (dropRightWhile p l).getLast? = some a) : p a = false := by
  unfold dropRightWhile at h
  rw [List.getLast?_reverse] at h
  exact head_dropWhile_false h

/-- `dropRightWhile` only trims the end, so a head it produces is the head of
its input. -/
theorem head_dropRightWhile_eq {p : Nat → Bool} {l : Text} {a : Nat}
    (h : (dropRightWhile p l).head? = some a) : l.head? = some a := by
  have hpre : dropRightWhile p l <+: l := by
    obtain ⟨t2, ht2⟩ := List.dropWhile_suffix (l := l.reverse) p
    refine ⟨t2.reverse, ?_⟩
    unfold dropRightWhile
    rw [← List.reverse_append, ht2, List.reverse_reverse]
  obtain ⟨t, ht⟩ := hpre
  rw [← ht]
  cases hd : dropRightWhile p l with
  | nil => rw [hd] at h; simp at h
  | cons x xs =>
    rw [hd] at h
    simp at h
    simp [h]

/-- A non-`none` head of `trim_matches(m)` differs from `m`. -/
theorem trimMatches_head_ne {m : Nat} {t : Text} {a : Nat}
    (h : (trimMatchesChar m t).head? = some a) : a ≠ m := by
  have h2 := head_dropRightWhile_eq h
  have h3 : ((fun x => x == m) a) = false :=
    head_dropWhile_false (p := fun x => x == m) h2
  simpa using h3

/-- A non-`none` last element of `trim_matches(m)` differs from `m`. -/
theorem trimMatches_getLast_ne {m : Nat} {t : Text} {a : Nat}
    (h : (trimMatchesChar m t).getLast? = some a) : a ≠ m := by
  have h3 := getLast_dropRightWhile_false (p := fun x => x == m) h
  simpa using h3

/-- Every value inserted by the parameter loop of `Header::new` is
quote-free, given the accumulator is. -/
theorem buildFields_quoteFree :
    ∀ (rest : List Text) (acc fs : List (Text × Text)),
      (∀ kv ∈ acc, QuoteFree kv.2) → buildFields acc rest = .ok fs →
      ∀ kv ∈ fs, QuoteFree kv.2 := by
  intro rest
  induction rest with
  | nil =>
    intro acc fs hacc hok
    simp [buildFields] at hok
    subst hok
    exact hacc
  | cons s rs ih =>
    intro acc fs hacc hok
    unfold buildFields at hok
    rcases htk : toKeyValue s 61 with p | kv
    · rw [htk] at hok; cases hok
    · rw [htk] at hok
      refine ih _ fs ?_ hok
      intro kv2 hmem
      unfold insertKV at hmem
      rw [List.mem_cons] at hmem
      rcases hmem with hmem | hmem
      · subst hmem
        constructor
        · intro hh
          exact trimMatches_head_ne hh rfl
        · intro hh
          exact trimMatches_getLast_ne hh rfl
      · exact hacc _ (List.mem_of_mem_filter hmem)

/-- Every parameter value stored by `Header::new` is quote-free. -/
theorem headerNew_fields_quoteFree {line : Text} {hdr : Header}
    (hok : headerNew line = .ok hdr) : ∀ kv ∈ hdr.fields, QuoteFree kv.2 := by
  unfold headerNew at hok
  split at hok
  · cases hok
  · split at hok
    · cases hok
    · split at hok
      · cases hok
      · rename_i fs hbf
        cases hok
        exact buildFields_quoteFree _ [] _ (by simp) hbf

/-- Claim C8 counterexample: the claim says surrounding double quotes are
stripped exactly once, so a value whose quoted content begins and ends with
a quote keeps that inner pair.  For `X: v; p=""q""`, exactly-once stripping
would store `"q"` (with quotes); the source's `trim_matches('"')` strips
repeatedly and stores `q`. -/
theorem double_quotes_stripped_repeatedly :
    headerParamOf (str "X: v; p=\"\"q\"\"") (str "p") = some (str "q") ∧
    str "q" ≠ str "\"q\"" := by
  refine ⟨by decide, by decide⟩

/-- Claim C8 as amended: parameter values have all surrounding double quotes
stripped (repeatedly, as by `trim_matches`): a stored parameter value never
begins or ends with a double-quote character. -/
theorem param_value_never_quote_delimited (line : Text) (hdr : Header)
    (k v : Text) (hok : headerNew line = .ok hdr)
    (hget : lookupKV k hdr.fields = some v) :
    v.head? ≠ some 34 ∧ v.getLast? ≠ some 34 := by
  unfold lookupKV at hget
  rcases hf : hdr.fields.find? (fun p => p.1 == k) with _ | pr
  · rw [hf] at hget; cases hget
  · rw [hf] at hget
    simp at hget
    have hmem := List.mem_of_find?_eq_some hf
    have hq := headerNew_fields_quoteFree hok pr hmem
    rw [hget] at hq
    exact hq

theorem param_value_never_quote_delimited_witness :
    (str "q").head? ≠ some 34 ∧ (str "q").getLast? ≠ some 34 :=
  param_value_never_quote_delimited (str "X: v; p=\"q\"")
    ⟨str "X", str "v", [(str "p", str "q")]⟩ (str "p") (str "q")
    (by decide) (by decide)

/-- Claim C9: a part whose built `Headers` lack a `Content-Disposition`
header, or whose `Content-Disposition` carries no `name` parameter, makes the
derive-generated dispatcher panic on `get_name().unwrap()`; it never returns
a sink, so such a part is never silently consumed by a derived record. -/
theorem dispatcher_unwrap_panics_without_name (fields : List FieldDesc)
    (fb : HeadersM → Option ProcessParams) (hs : HeadersM)
    (h : hs.headers.find? (fun p => p.1 == str "Content-Disposition") = none ∨
      ∃ hdr : Header,
        (hs.headers.find? (fun p => p.1 == str "Content-Disposition")).map (·.2)
            = some hdr ∧
          hdr.fields.find? (fun p => p.1 == str "name") = none) :
    genDispatch fields fb hs = .error .unwrapNone := by
  have hname : headersGetName hs = none := by
    rcases h with h | ⟨hdr, h1, h2⟩
    · simp [headersGetName, headersGet, h]
    · simp [headersGetName, headersGet, h1, lookupKV, h2]
  simp [genDispatch, hname]

theorem dispatcher_unwrap_panics_without_name_witness :
    genDispatch [] (fun _ => none) ⟨[]⟩ = .error .unwrapNone :=
  dispatcher_unwrap_panics_without_name [] (fun _ => none) ⟨[]⟩
    (Or.inl (by decide))

/-- Claim C10: a completed header line that is not valid UTF-8 is silently
discarded by `HeadersBuilder::flush`: the byte buffer is cleared, the line
list is exactly what it was (so the line never reaches the built `Headers`,
and later lines are processed as if the bad line had never been written),
and no error reaches the record. -/
theorem invalid_utf8_header_line_discarded (b : HeadersBuilder)
    (h : utf8Decode b.tmp = none) :
    hbFlush b = ⟨[], b.lines⟩ ∧
    hbBuild (hbFlush b) = hbBuild ⟨[], b.lines⟩ := by
  constructor
  · simp [hbFlush, h]
  · simp [hbFlush, h]

theorem invalid_utf8_header_line_discarded_witness :
    hbFlush ⟨[255], [str "Content-Type: text/plain"]⟩ =
      ⟨[], [str "Content-Type: text/plain"]⟩ :=
  (invalid_utf8_header_line_discarded ⟨[255], [str "Content-Type: text/plain"]⟩
    (by decide)).1

/-- `remove_item` never adds names. -/
theorem removeItem_subset (x : Text) : ∀ l : List Text, removeItem x l ⊆ l := by
  intro l
  induction l with
  | nil => simp [removeItem]
  | cons a as ih =>
    unfold removeItem
    by_cases h : a = x
    · rw [if_pos h]
      exact List.subset_cons_self a as
    · rw [if_neg h]
      exact List.cons_subset_cons a ih

/-- `remove_item` of an absent name is the identity. -/
theorem removeItem_of_not_mem {x : Text} :
    ∀ {l : List Text}, x ∉ l → removeItem x l = l := by
  intro l
  induction l with
  | nil => intro _; rfl
  | cons a as ih =>
    intro h
    rw [List.mem_cons] at h
    push_neg at h
    unfold removeItem
    rw [if_neg (fun hax => h.1 hax.symm), ih h.2]

/-- `openedNames` distributes over trace concatenation. -/
theorem openedNames_append (a b : List Ev) :
    openedNames (a ++ b) = openedNames a ++ openedNames b := by
  induction a with
  | nil => rfl
  | cons e es ih => cases e <;> simp [openedNames, ih]

/-- Removing a concatenation of name lists removes them in order. -/
theorem removeList_append_eq (l a b : List Text) :
    removeList l (a ++ b) = removeList (removeList l a) b :=
  List.foldl_append _ _ _ _

/-- `processor_flush` opens nothing. -/
theorem openedNames_processorFlush (st : ParserSt) :
    openedNames (processorFlush st) = [] := by
  unfold processorFlush
  split <;> rfl

/-- The size check leaves the unseen-required list and the headers alone and
opens nothing. -/
theorem sizeCheck_shape {tgt : Target} {pp : ProcessParams} {st : ParserSt}
    {delta : Nat} {st2 : ParserSt} {evs : List Ev}
    (h : sizeCheck tgt pp st delta = .ok (st2, evs)) :
    st2.unprocessed = st.unprocessed ∧ st2.headers = st.headers ∧
      openedNames evs = [] := by
  unfold sizeCheck at h
  repeat' split at h
  all_goals cases h <;> exact ⟨rfl, rfl, rfl⟩

/-- A sink write leaves the unseen-required list alone and opens nothing. -/
theorem pwft_shape {tgt : Target} {st : ParserSt} {buf : List Nat} {f t : Nat}
    {st2 : ParserSt} {evs : List Ev}
    (h : processorWriteFromTo tgt st buf f t = .ok (st2, evs)) :
    st2.unprocessed = st.unprocessed ∧ openedNames evs = [] := by
  unfold processorWriteFromTo at h
  split at h
  · simp only [Except.ok.injEq, Prod.mk.injEq] at h
    obtain ⟨rfl, rfl⟩ := h
    exact ⟨rfl, rfl⟩
  · split at h
    · simp only [Except.ok.injEq, Prod.mk.injEq] at h
      obtain ⟨rfl, rfl⟩ := h
      exact ⟨rfl, rfl⟩
    · split at h
      · cases h
      · rename_i stA evsA hsz
        have hshape := sizeCheck_shape hsz
        split at h
        · simp only [Except.ok.injEq, Prod.mk.injEq] at h
          obtain ⟨rfl, rfl⟩ := h
          exact ⟨hshape.1, hshape.2.2⟩
        · split at h
          · simp only [Except.ok.injEq, Prod.mk.injEq] at h
            obtain ⟨rfl, rfl⟩ := h
            refine ⟨hshape.1, ?_⟩
            rw [openedNames_append, hshape.2.2]
            rfl
          · cases h

/-- `processor_write` leaves the unseen-required list alone and opens
nothing. -/
theorem processorWrite_shape {tgt : Target} {st : ParserSt} {buf : List Nat}
    {st2 : ParserSt} {evs : List Ev}
    (h : processorWrite tgt st buf = .ok (st2, evs)) :
    st2.unprocessed = st.unprocessed ∧ openedNames evs = [] := by
  unfold processorWrite at h
  exact pwft_shape h

/-- `processor_write_sym` leaves the unseen-required list alone and opens
nothing. -/
theorem processorWriteSym_shape {tgt : Target} {st : ParserSt} {c : Nat}
    {st2 : ParserSt} {evs : List Ev}
    (h : processorWriteSym tgt st c = .ok (st2, evs)) :
    st2.unprocessed = st.unprocessed ∧ openedNames evs = [] := by
  unfold processorWriteSym at h
  exact pwft_shape h

/-- The `flow_content` loop leaves the unseen-required list alone and opens
nothing. -/
theorem flowGo_shape {tgt : Target} {bd : Bounds} {f t : Nat} :
    ∀ (k : Nat) {pos : Nat} {st st2 : ParserSt} {evs : List Ev} {np : Nat},
      flowGo tgt bd f t k pos st = .ok (st2, evs, np) →
      st2.unprocessed = st.unprocessed ∧ openedNames evs = [] := by
  intro k
  induction k with
  | zero =>
    intro pos st st2 evs np h
    unfold flowGo at h
    simp only [Except.ok.injEq, Prod.mk.injEq] at h
    obtain ⟨rfl, rfl, rfl⟩ := h
    exact ⟨rfl, rfl⟩
  | succ k ih =>
    intro pos st st2 evs np h
    unfold flowGo at h
    split at h
    · split at h
      · cases h
      · split at h
        · cases h
        · split at h
          · split at h
            · split at h
              · cases h
              · rename_i stA evsA hw
                simp only [Except.ok.injEq, Prod.mk.injEq] at h
                obtain ⟨rfl, rfl, rfl⟩ := h
                exact pwft_shape hw
            · simp only [Except.ok.injEq, Prod.mk.injEq] at h
              obtain ⟨rfl, rfl, rfl⟩ := h
              exact ⟨rfl, rfl⟩
          · exact ih h
    · simp only [Except.ok.injEq, Prod.mk.injEq] at h
      obtain ⟨rfl, rfl, rfl⟩ := h
      exact ⟨rfl, rfl⟩

/-- `process_content` leaves the unseen-required list alone and opens
nothing. -/
theorem processContent_shape {tgt : Target} {bd : Bounds} {st : ParserSt}
    {buf : List Nat} {c : Nat} {st2 : ParserSt} {evs : List Ev}
    (h : processContent tgt bd st buf c = .ok (st2, evs)) :
    st2.unprocessed = st.unprocessed ∧ openedNames evs = [] := by
  simp only [processContent] at h
  split at h
  · cases h
  · split at h
    · simp only [Except.ok.injEq, Prod.mk.injEq] at h
      obtain ⟨rfl, rfl⟩ := h
      exact ⟨rfl, openedNames_processorFlush st⟩
    · split at h
      · split at h
        · split at h
          · cases h
          · rename_i stA evsA hw
            simp only [Except.ok.injEq, Prod.mk.injEq] at h
            obtain ⟨rfl, rfl⟩ := h
            have h1 := processorWrite_shape hw
            exact h1
        · simp only [Except.ok.injEq, Prod.mk.injEq] at h
          obtain ⟨rfl, rfl⟩ := h
          exact ⟨rfl, rfl⟩
      · split at h
        · split at h
          · cases h
          · split at h
            · cases h
            · rename_i stA evsA hw
              have h1 := processorWriteSym_shape hw
              split at h
              · split at h
                · cases h
                · rename_i stB evsB np hf
                  have h2 := flowGo_shape _ hf
                  simp only [Except.ok.injEq, Prod.mk.injEq] at h
                  obtain ⟨rfl, rfl⟩ := h
                  refine ⟨h2.1.trans h1.1, ?_⟩
                  rw [openedNames_append, h1.2, h2.2]
                  rfl
              · simp only [Except.ok.injEq, Prod.mk.injEq] at h
                obtain ⟨rfl, rfl⟩ := h
                exact h1
        · simp only [Except.ok.injEq, Prod.mk.injEq] at h
          obtain ⟨rfl, rfl⟩ := h
          exact ⟨rfl, rfl⟩

/-- The header replay loop leaves the unseen-required list alone. -/
theorem replayHeader_unproc {empty : List Nat}
    {g : ParserSt → Nat → Except Abort ParserSt}
    (hg : ∀ st c st', g st c = .ok st' → st'.unprocessed = st.unprocessed) :
    ∀ (k i : Nat) (st st' : ParserSt),
      replayHeader empty g k i st = .ok st' →
      st'.unprocessed = st.unprocessed := by
  intro k
  induction k with
  | zero =>
    intro i st st' h
    unfold replayHeader at h
    simp only [Except.ok.injEq] at h
    rw [h]
  | succ k ih =>
    intro i st st' h
    unfold replayHeader at h
    split at h
    · cases h
    · split at h
      · cases h
      · rename_i stA hA
        exact (ih _ _ _ h).trans (hg _ _ _ hA)

/-- `process_header` leaves the unseen-required list alone. -/
theorem processHeaderF_unproc {bd : Bounds} :
    ∀ (fuel : Nat) (st : ParserSt) (c : Nat) (st' : ParserSt),
      processHeaderF bd fuel st c = .ok st' →
      st'.unprocessed = st.unprocessed := by
  intro fuel
  induction fuel with
  | zero =>
    intro st c st' h
    simp only [processHeaderF] at h
    cases h
  | succ fuel ih =>
    intro st c st' h
    simp only [processHeaderF] at h
    split at h
    · cases h
    · split at h
      · simp only [Except.ok.injEq] at h
        rw [← h]
        rfl
      · split at h
        · simp only [Except.ok.injEq] at h
          rw [← h]
        · split at h
          · split at h
            · cases h
            · have hu := replayHeader_unproc (fun a b c2 hh => ih a b c2 hh)
                _ _ _ _ h
              exact hu
          · simp only [Except.ok.injEq] at h
            rw [← h]

/-- `process_boundary_first` leaves the unseen-required list alone. -/
theorem processBoundaryFirst_unproc {bd : Bounds} {st : ParserSt} {c : Nat}
    {st' : ParserSt} (h : processBoundaryFirst bd st c = .ok st') :
    st'.unprocessed = st.unprocessed := by
  unfold processBoundaryFirst at h
  repeat' split at h
  all_goals cases h <;> rfl

/-- `process_post_boundary` leaves the unseen-required list alone. -/
theorem processPostBoundary_unproc {bd : Bounds} {st : ParserSt} {c : Nat}
    {st' : ParserSt} (h : processPostBoundary bd st c = .ok st') :
    st'.unprocessed = st.unprocessed := by
  unfold processPostBoundary at h
  repeat' split at h
  all_goals cases h <;> rfl

/-- Entering `Content` removes exactly the part's name from the
unseen-required list, and opens a sink exactly when the name is one of the
derived record's field names. -/
theorem toContent_opens {fields : List FieldDesc}
    {hnd : PErr → Except Unit OnError} {st st2 : ParserSt} {evs : List Ev}
    (h : toContent (genTarget fields hnd) st = .ok (st2, evs)) :
    StepOpens fields st st2 evs := by
  simp only [toContent] at h
  split at h
  · cases h
  · rename_i pr hbuild
    split at h
    · cases h
    · rename_i pp? hdisp
      simp only [Except.ok.injEq, Prod.mk.injEq] at h
      obtain ⟨rfl, rfl⟩ := h
      simp only [genTarget] at hdisp
      unfold genDispatch at hdisp
      split at hdisp
      · cases hdisp
      · rename_i n hname
        right
        refine ⟨n, ?_, ?_⟩
        · simp only [hname]
        · split at hdisp
          · rename_i fd hfind
            simp only [Except.ok.injEq] at hdisp
            have hbeq := List.find?_some hfind
            have hfd : fd.name = n := by simpa using hbeq
            left
            constructor
            · rw [← hdisp]
              simp [processorOpen, openedNames, hfd]
            · rw [← hfd]
              exact List.mem_map_of_mem _ (List.mem_of_find?_eq_some hfind)
          · rename_i hfind
            simp only [Except.ok.injEq] at hdisp
            right
            constructor
            · rw [← hdisp]
              simp [processorOpen, openedNames]
            · intro hmem
              rw [List.mem_map] at hmem
              obtain ⟨fd, hfd, hfdn⟩ := hmem
              have := List.find?_eq_none.mp hfind fd hfd
              simp [hfdn] at this

/-- `process_post_header` satisfies the step contract for derived records. -/
theorem processPostHeader_opens {fields : List FieldDesc}
    {hnd : PErr → Except Unit OnError} {bd : Bounds} {st : ParserSt} {c : Nat}
    {st2 : ParserSt} {evs : List Ev}
    (h : processPostHeader (genTarget fields hnd) bd st c = .ok (st2, evs)) :
    StepOpens fields st st2 evs := by
  simp only [processPostHeader] at h
  split at h
  · cases h
  · split at h
    · exact toContent_opens h
    · split at h
      · simp only [Except.ok.injEq, Prod.mk.injEq] at h
        obtain ⟨rfl, rfl⟩ := h
        exact Or.inl ⟨rfl, rfl⟩
      · split at h
        · cases h
        · split at h
          · cases h
          · rename_i stA hrep
            simp only [Except.ok.injEq, Prod.mk.injEq] at h
            obtain ⟨rfl, rfl⟩ := h
            left
            refine ⟨?_, rfl⟩
            have := replayHeader_unproc
              (fun a b c2 hh => processHeaderF_unproc 8 a b c2 hh) _ _ _ _ hrep
            simpa [toHeaderContinue] using this

/-- One byte step of a derived record satisfies the step contract. -/
theorem stepByte_opens {fields : List FieldDesc}
    {hnd : PErr → Except Unit OnError} {bd : Bounds} {buf : List Nat}
    {st : ParserSt} {pos c : Nat} {st2 : ParserSt} {evs : List Ev}
    (h : stepByte (genTarget fields hnd) bd buf st pos c = .ok (st2, evs)) :
    StepOpens fields st st2 evs := by
  simp only [stepByte] at h
  split at h
  · split at h
    · cases h
    · rename_i stA hA
      simp only [Except.ok.injEq, Prod.mk.injEq] at h
      obtain ⟨rfl, rfl⟩ := h
      have hu := processBoundaryFirst_unproc hA
      exact Or.inl ⟨hu, rfl⟩
  · split at h
    · cases h
    · rename_i stA hA
      simp only [Except.ok.injEq, Prod.mk.injEq] at h
      obtain ⟨rfl, rfl⟩ := h
      have hu := processHeaderF_unproc _ _ _ _ hA
      exact Or.inl ⟨hu, rfl⟩
  · have := processPostHeader_opens h
    simpa [StepOpens] using this
  · have := processContent_shape h
    exact Or.inl this
  · split at h
    · cases h
    · rename_i stA hA
      simp only [Except.ok.injEq, Prod.mk.injEq] at h
      obtain ⟨rfl, rfl⟩ := h
      have hu := processPostBoundary_unproc hA
      exact Or.inl ⟨hu, rfl⟩
  · simp only [Except.ok.injEq, Prod.mk.injEq] at h
    obtain ⟨rfl, rfl⟩ := h
    exact Or.inl ⟨rfl, rfl⟩

/-- Over a whole `write` loop, the unseen-required list of a derived record
evolves exactly by removing the opened names, in order. -/
theorem writeLoop_unproc {fields : List FieldDesc}
    {hnd : PErr → Except Unit OnError} {bd : Bounds} {buf : List Nat} :
    ∀ (bytes : List Nat) (pos : Nat) (st st2 : ParserSt) (evs : List Ev),
      writeLoop (genTarget fields hnd) bd buf pos bytes st = .ok (st2, evs) →
      st.unprocessed ⊆ fields.map (·.name) →
      st2.unprocessed = removeList st.unprocessed (openedNames evs) ∧
        st2.unprocessed ⊆ fields.map (·.name) := by
  intro bytes
  induction bytes with
  | nil =>
    intro pos st st2 evs h hsub
    unfold writeLoop at h
    simp only [Except.ok.injEq, Prod.mk.injEq] at h
    obtain ⟨rfl, rfl⟩ := h
    exact ⟨rfl, hsub⟩
  | cons c rest ih =>
    intro pos st st2 evs h hsub
    unfold writeLoop at h
    split at h
    · cases h
    · rename_i stA evsA hstep
      split at h
      · cases h
      · rename_i stB evsB hloop
        simp only [Except.ok.injEq, Prod.mk.injEq] at h
        obtain ⟨rfl, rfl⟩ := h
        rcases stepByte_opens hstep with ⟨he, hoe⟩ | ⟨n, he, hcase⟩
        · have hrec := ih _ _ _ _ hloop (he ▸ hsub)
          rw [openedNames_append, hoe, List.nil_append]
          rw [he] at hrec
          exact hrec
        · rcases hcase with ⟨hoe, _⟩ | ⟨hoe, hnmem⟩
          · have hsubA : stA.unprocessed ⊆ fields.map (·.name) :=
              he ▸ (fun x hx => hsub (removeItem_subset n _ hx))
            have hrec := ih _ _ _ _ hloop hsubA
            rw [openedNames_append, hoe]
            rw [he] at hrec
            exact hrec
          · have hne : n ∉ st.unprocessed := fun hmem2 => hnmem (hsub hmem2)
            have heq : stA.unprocessed = st.unprocessed := by
              rw [he, removeItem_of_not_mem hne]
            have hrec := ih _ _ _ _ hloop (heq ▸ hsub)
            rw [openedNames_append, hoe, List.nil_append]
            rw [heq] at hrec
            exact hrec

/-- Over a sequence of chunks, the unseen-required list of a derived record
evolves exactly by removing the opened names, in order. -/
theorem writeChunks_unproc {fields : List FieldDesc}
    {hnd : PErr → Except Unit OnError} {bd : Bounds} :
    ∀ (chunks : List (List Nat)) (st st2 : ParserSt) (evs : List Ev),
      writeChunks (genTarget fields hnd) bd st chunks = .ok (st2, evs) →
      st.unprocessed ⊆ fields.map (·.name) →
      st2.unprocessed = removeList st.unprocessed (openedNames evs) ∧
        st2.unprocessed ⊆ fields.map (·.name) := by
  intro chunks
  induction chunks with
  | nil =>
    intro st st2 evs h hsub
    unfold writeChunks at h
    simp only [Except.ok.injEq, Prod.mk.injEq] at h
    obtain ⟨rfl, rfl⟩ := h
    exact ⟨rfl, hsub⟩
  | cons b bs ih =>
    intro st st2 evs h hsub
    unfold writeChunks at h
    split at h
    · cases h
    · rename_i stA evsA hw
      split at h
      · cases h
      · rename_i stB evsB hbs
        simp only [Except.ok.injEq, Prod.mk.injEq] at h
        obtain ⟨rfl, rfl⟩ := h
        unfold parserWrite at hw
        have h1 := writeLoop_unproc _ _ _ _ _ hw hsub
        have h2 := ih _ _ _ hbs h1.2
        constructor
        · rw [openedNames_append, removeList_append_eq, h2.1, h1.1]
        · exact h2.2

/-- Every required name of a derived record is a field name. -/
theorem required_subset_names (fields : List FieldDesc) :
    getAllRequired fields ⊆ fields.map (·.name) := by
  intro n hn
  unfold getAllRequired at hn
  rw [List.mem_map] at hn
  obtain ⟨fd, hfd, hname⟩ := hn
  rw [List.mem_map]
  exact ⟨fd, List.mem_of_mem_filter hfd, hname⟩

/-- On duplicate-free lists, `remove_item` is a filter. -/
theorem removeItem_eq_filter {a : Text} :
    ∀ {l : List Text}, l.Nodup → removeItem a l = l.filter (fun x => !(x == a)) := by
  intro l
  induction l with
  | nil => intro _; rfl
  | cons c cs ih =>
    intro hnd
    rw [List.nodup_cons] at hnd
    unfold removeItem
    by_cases hca : c = a
    · subst hca
      rw [if_pos rfl, List.filter_cons]
      have hcond : (!(c == c)) = false := by simp
      rw [hcond]
      simp only [Bool.false_eq_true, if_false]
      refine (List.filter_eq_self.mpr ?_).symm
      intro x hx
      simp only [Bool.not_eq_true', beq_eq_false_iff_ne]
      intro hxc
      exact hnd.1 (hxc ▸ hx)
    · rw [if_neg hca, List.filter_cons]
      have hcond : (!(c == a)) = true := by simpa using hca
      rw [hcond, if_pos rfl, ih hnd.2]

/-- On duplicate-free lists, removing a list of names is a filter. -/
theorem removeList_eq_filter :
    ∀ (names : List Text) {l : List Text}, l.Nodup →
      removeList l names = l.filter (fun x => !(names.elem x)) := by
  intro names
  induction names with
  | nil =>
    intro l _
    rw [List.filter_eq_self.mpr]
    · rfl
    · intro x _
      rfl
  | cons n ns ih =>
    intro l hnd
    have h1 : removeList l (n :: ns) = removeList (removeItem n l) ns := rfl
    rw [h1, ih ((removeItem_eq_filter hnd) ▸ hnd.filter _),
      removeItem_eq_filter hnd, List.filter_filter]
    apply List.filter_congr
    intro x _
    simp only [List.elem_cons]
    cases hxn : x == n <;> simp [hxn]

/-- Claim C7: when the parser's `flush` runs after any sequence of `write`
chunks on a derived record (duplicate-free required names, default
`content_parser` hook), the still-unseen required names are exactly the
required names for which no `open` was observed; if any exist the record's
error handler is invoked exactly once with `RequiredMissing` carrying exactly
those names, the handler's return value is discarded (the outcome is the
same for any handler), and the record's `finish` hook is then called —
`finish` is called even when nothing is missing. -/
theorem flush_reports_unseen_required (fields : List FieldDesc)
    (hnd hnd2 : PErr → Except Unit OnError) (bd : Bounds)
    (chunks : List (List Nat)) (st : ParserSt) (evs : List Ev)
    (hnodup : (getAllRequired fields).Nodup)
    (hrun : writeChunks (genTarget fields hnd) bd
      (initSt (getAllRequired fields)) chunks = .ok (st, evs)) :
    st.unprocessed = (getAllRequired fields).filter
        (fun n => !((openedNames evs).elem n)) ∧
    parserFlush (genTarget fields hnd) st =
      (st, (if st.unprocessed.isEmpty then ([] : List Ev)
            else [Ev.errCall (.requiredMissing st.unprocessed)]) ++ [Ev.finish]) ∧
    parserFlush (genTarget fields hnd2) st =
      parserFlush (genTarget fields hnd) st := by
  refine ⟨?_, ?_, ?_⟩
  · have hsub : (initSt (getAllRequired fields)).unprocessed ⊆
        fields.map (·.name) := required_subset_names fields
    have h := writeChunks_unproc chunks _ st evs hrun hsub
    rw [h.1]
    exact removeList_eq_filter _ hnodup
  · unfold parserFlush
    split <;> rename_i hemp <;> simp [hemp]
  · rfl

/-- Witness for C7: a record requiring `q` fed no chunks at all reports
`RequiredMissing ["q"]` once and then finishes. -/
theorem flush_reports_unseen_required_witness :
    (initSt [str "q"]).unprocessed = [str "q"] ∧
    parserFlush (genTarget [⟨str "q", none, true⟩] handlerCWE)
        (initSt [str "q"]) =
      (initSt [str "q"],
        [Ev.errCall (.requiredMissing [str "q"]), Ev.finish]) := by
  have h := flush_reports_unseen_required [⟨str "q", none, true⟩] handlerCWE
    handlerSkip bX [] (initSt [str "q"]) [] (by decide) (by decide)
  exact ⟨h.1.trans (by decide), h.2.1.trans (by decide)⟩

end Multipart
